import Mathlib

/-!
Shallow embedding of the neuromorphic spiking-network core
(src/rust/neuromorphic/src/lib.rs) and proofs about it.

Numeric model: Rust f32 values are embedded as exact rationals (ℚ).  All
arithmetic the claims depend on (comparisons against literals, clamping,
counting, division by nonzero window lengths) is exact at the inputs used,
so the idealization is faithful there.  Where the source can divide by
zero (a zero firing-rate window, an empty classifier trace) the IEEE
behaviour matters, so those computations are additionally embedded over a
small wrapper type F32 with explicit positive/negative infinity and NaN
values and IEEE-style comparison semantics (any comparison with NaN is
false).

The wasm/js host glue (console logging, js_sys::Date::now, serde
serialization) is outside the core: the wall-clock start time read by
generate_spikes is passed as an explicit parameter, and the f32 sine used
for the stimulus shape is passed as an explicit function parameter (the
theorems below hold for every such function, hence for the actual f32
sine).
-/

/-- IEEE-style f32 value: finite rational, infinities, or NaN.  Used for
the computations where the source can divide by zero. -/
inductive F32 where
  | finite (q : ℚ)
  | posInf
  | negInf
  | nan
deriving DecidableEq

namespace F32

/-- IEEE-style addition on the wrapper (NaN propagates, opposite
infinities give NaN). -/
def fadd : F32 → F32 → F32
  | nan, _ => nan
  | _, nan => nan
  | finite a, finite b => finite (a + b)
  | posInf, negInf => nan
  | negInf, posInf => nan
  | posInf, _ => posInf
  | _, posInf => posInf
  | negInf, _ => negInf
  | _, negInf => negInf

/-- IEEE-style subtraction on the wrapper. -/
def fsub : F32 → F32 → F32
  | nan, _ => nan
  | _, nan => nan
  | finite a, finite b => finite (a - b)
  | posInf, posInf => nan
  | negInf, negInf => nan
  | posInf, _ => posInf
  | negInf, _ => negInf
  | finite _, posInf => negInf
  | finite _, negInf => posInf

/-- IEEE-style multiplication on the wrapper (infinity times zero is
NaN). -/
def fmul : F32 → F32 → F32
  | nan, _ => nan
  | _, nan => nan
  | finite a, finite b => finite (a * b)
  | posInf, posInf => posInf
  | posInf, negInf => negInf
  | negInf, posInf => negInf
  | negInf, negInf => posInf
  | posInf, finite b => if b = 0 then nan else if 0 < b then posInf else negInf
  | finite a, posInf => if a = 0 then nan else if 0 < a then posInf else negInf
  | negInf, finite b => if b = 0 then nan else if 0 < b then negInf else posInf
  | finite a, negInf => if a = 0 then nan else if 0 < a then negInf else posInf

/-- IEEE-style division on the wrapper: a nonzero finite value divided by
zero is a signed infinity, zero divided by zero is NaN. -/
def fdivF : F32 → F32 → F32
  | nan, _ => nan
  | _, nan => nan
  | finite a, finite b =>
      if b = 0 then (if a = 0 then nan else if 0 < a then posInf else negInf)
      else finite (a / b)
  | finite _, posInf => finite 0
  | finite _, negInf => finite 0
  | posInf, posInf => nan
  | posInf, negInf => nan
  | negInf, posInf => nan
  | negInf, negInf => nan
  | posInf, finite b => if 0 ≤ b then posInf else negInf
  | negInf, finite b => if 0 ≤ b then negInf else posInf

/-- IEEE-style strict comparison: every comparison involving NaN is
false. -/
def flt : F32 → F32 → Bool
  | nan, _ => false
  | _, nan => false
  | finite a, finite b => decide (a < b)
  | negInf, negInf => false
  | negInf, _ => true
  | _, negInf => false
  | posInf, _ => false
  | _, posInf => true

end F32

/-- LeakyIntegrateFireNeuron (lib.rs lines 33-40).  Timestamps are ℕ for
the source's u64 (no value here ever nears 2^64). -/
structure LeakyIntegrateFireNeuron where
  membrane_potential : ℚ
  threshold : ℚ
  leak_rate : ℚ
  refractory_period : ℕ
  refractory_counter : ℕ
  spike_history : List ℕ
deriving DecidableEq

namespace LeakyIntegrateFireNeuron

/-- LeakyIntegrateFireNeuron::new (lib.rs lines 43-52). -/
def new (threshold leak_rate : ℚ) : LeakyIntegrateFireNeuron :=
  { membrane_potential := 0
    threshold := threshold
    leak_rate := leak_rate
    refractory_period := 5
    refractory_counter := 0
    spike_history := [] }

instance : Inhabited LeakyIntegrateFireNeuron := ⟨new 0 0⟩

/-- LeakyIntegrateFireNeuron::step (lib.rs lines 54-83).  Returns
(spiked, updated neuron). -/
def step (nr : LeakyIntegrateFireNeuron) (input_current : ℚ) (timestep : ℕ) :
    Bool × LeakyIntegrateFireNeuron :=
  if 0 < nr.refractory_counter then
    (false, { nr with refractory_counter := nr.refractory_counter - 1, membrane_potential := 0 })
  else
    let mp := nr.membrane_potential * (1 - nr.leak_rate) + input_current
    if nr.threshold ≤ mp then
      let hist := nr.spike_history ++ [timestep]
      let hist := if 100 < hist.length then hist.tail else hist
      (true, { nr with membrane_potential := 0
                       refractory_counter := nr.refractory_period
                       spike_history := hist })
    else
      (false, { nr with membrane_potential := mp })

/-- Number of recorded spikes at or after the saturating cutoff
current_time - window_ms; the count inside get_firing_rate
(lib.rs lines 86-89).  Nat subtraction is the source's saturating_sub. -/
def recent_spike_count (nr : LeakyIntegrateFireNeuron) (window_ms current_time : ℕ) : ℕ :=
  let cutoff_time := current_time - window_ms
  nr.spike_history.countP (fun spike_time => decide (cutoff_time ≤ spike_time))

/-- LeakyIntegrateFireNeuron::get_firing_rate (lib.rs lines 85-92) in the
exact-rational model; used by the simulator only with the nonzero windows
10, 20 and 100, where it agrees with the IEEE model below. -/
def get_firing_rate (nr : LeakyIntegrateFireNeuron) (window_ms current_time : ℕ) : ℚ :=
  ((nr.recent_spike_count window_ms current_time : ℚ) / (window_ms : ℚ)) * 1000

/-- LeakyIntegrateFireNeuron::get_firing_rate with IEEE division
semantics, to make the window_ms == 0 behaviour of the source explicit. -/
def get_firing_rateF (nr : LeakyIntegrateFireNeuron) (window_ms current_time : ℕ) : F32 :=
  F32.fmul
    (F32.fdivF (F32.finite (nr.recent_spike_count window_ms current_time : ℚ))
      (F32.finite (window_ms : ℚ)))
    (F32.finite 1000)

end LeakyIntegrateFireNeuron

/-- On every nonzero window the IEEE model of get_firing_rate is the
finite rational value of the exact model. -/
theorem get_firing_rateF_eq_finite (nr : LeakyIntegrateFireNeuron) (w t : ℕ) (hw : 0 < w) :
    nr.get_firing_rateF w t = F32.finite (nr.get_firing_rate w t) := by
  have hw0 : (w : ℚ) ≠ 0 := by exact_mod_cast Nat.pos_iff_ne_zero.mp hw
  simp [LeakyIntegrateFireNeuron.get_firing_rateF, LeakyIntegrateFireNeuron.get_firing_rate,
    F32.fdivF, F32.fmul, hw0]

/-- Sum of a population-activity trace as the source computes it
(fold of f32 additions starting from 0.0; lib.rs line 313). -/
def pattern_sumF (spike_pattern : List ℚ) : F32 :=
  spike_pattern.foldl (fun acc x => F32.fadd acc (F32.finite x)) (F32.finite 0)

/-- Variance of a trace as the source computes it (lib.rs lines 314-317):
mean = sum / len, then mean of squared deviations; both divisions are
IEEE divisions, so an empty trace gives NaN (0.0 / 0.0). -/
def pattern_varianceF (spike_pattern : List ℚ) : F32 :=
  let mean := F32.fdivF (pattern_sumF spike_pattern) (F32.finite (spike_pattern.length : ℚ))
  F32.fdivF
    (spike_pattern.foldl
      (fun acc x => F32.fadd acc (F32.fmul (F32.fsub (F32.finite x) mean)
        (F32.fsub (F32.finite x) mean)))
      (F32.finite 0))
    (F32.finite (spike_pattern.length : ℚ))

/-- The fixed first-match-wins rule chain of recognize_pattern
(lib.rs lines 319-330), as a function of the two statistics. -/
def classify_statsF (pattern_sum pattern_variance : F32) : Option String :=
  if F32.flt (F32.finite 5) pattern_sum && F32.flt (F32.finite 0.1) pattern_variance then
    some "complex_burst"
  else if F32.flt (F32.finite 2) pattern_sum && F32.flt pattern_variance (F32.finite 0.05) then
    some "steady_oscillation"
  else if F32.flt (F32.finite 0.2) pattern_variance then
    some "chaotic_firing"
  else if F32.flt (F32.finite 1) pattern_sum then
    some "weak_activation"
  else
    some "minimal_response"

/-- NeuromorphicProcessor::recognize_pattern (lib.rs lines 311-331): the
source reads no processor state, so this is a function of the trace. -/
def recognize_pattern (spike_pattern : List ℚ) : Option String :=
  classify_statsF (pattern_sumF spike_pattern) (pattern_varianceF spike_pattern)

/-- Neuron used as a concrete test input: fresh neuron with one recorded
spike at timestep 5. -/
def spikeAtFive : LeakyIntegrateFireNeuron :=
  { LeakyIntegrateFireNeuron.new 1 0.1 with spike_history := [5] }

/-- C2: after any single step call, a positive refractory counter forces a
zero membrane potential (every branch of step either zeroes the potential
or leaves the counter at zero). -/
theorem step_refractory_zero_potential (nr : LeakyIntegrateFireNeuron) (inp : ℚ) (t : ℕ) :
    0 < ((nr.step inp t).2).refractory_counter →
      ((nr.step inp t).2).membrane_potential = 0 := by
  unfold LeakyIntegrateFireNeuron.step
  dsimp only
  split
  · intro _; rfl
  · next hc =>
    split
    · intro _; rfl
    · intro h
      exact absurd h hc

/-- Witness for C2: a neuron at threshold spikes, leaving a positive
refractory counter and zero potential. -/
theorem step_refractory_zero_potential_witness :
    (((LeakyIntegrateFireNeuron.new 1 0).step 1 0).2).membrane_potential = 0 :=
  step_refractory_zero_potential (LeakyIntegrateFireNeuron.new 1 0) 1 0
    (by norm_num [LeakyIntegrateFireNeuron.step, LeakyIntegrateFireNeuron.new])

/-- C3 counterexample: the claim that the firing rate is monotonically
non-increasing as the window shrinks is false: with one spike at time 5
and current_time 5, window 1 gives rate 1000 while window 2 gives rate
500 — the spike count shrinks with the window, but the rate divides by
the window length. -/
theorem firing_rate_not_monotone_in_window :
    ¬ ∀ (nr : LeakyIntegrateFireNeuron) (t w1 w2 : ℕ), 0 < w1 → w1 ≤ w2 →
        nr.get_firing_rate w1 t ≤ nr.get_firing_rate w2 t := by
  intro h
  have h2 := h spikeAtFive 5 1 2 (by norm_num) (by norm_num)
  norm_num [LeakyIntegrateFireNeuron.get_firing_rate,
    LeakyIntegrateFireNeuron.recent_spike_count, spikeAtFive,
    LeakyIntegrateFireNeuron.new] at h2

/-- C3 amended: for a fixed spike history and time, the firing rate is
non-negative for every positive window, and the COUNT of spikes in the
window is monotonically non-increasing as the window shrinks. -/
theorem firing_rate_nonneg_count_monotone (nr : LeakyIntegrateFireNeuron) (t w1 w2 : ℕ)
    (hw : 0 < w1) (h12 : w1 ≤ w2) :
    0 ≤ nr.get_firing_rate w1 t ∧
      nr.recent_spike_count w1 t ≤ nr.recent_spike_count w2 t := by
  constructor
  · unfold LeakyIntegrateFireNeuron.get_firing_rate
    have hc : (0 : ℚ) ≤ (nr.recent_spike_count w1 t : ℚ) := by positivity
    have hwq : (0 : ℚ) ≤ (w1 : ℚ) := by positivity
    exact mul_nonneg (div_nonneg hc hwq) (by norm_num)
  · unfold LeakyIntegrateFireNeuron.recent_spike_count
    apply List.countP_mono_left
    intro x _ hx
    simp only [decide_eq_true_eq] at hx ⊢
    omega

/-- Witness for the amended C3 at a concrete neuron and windows. -/
theorem firing_rate_nonneg_count_monotone_witness :
    0 ≤ spikeAtFive.get_firing_rate 1 5 ∧
      spikeAtFive.recent_spike_count 1 5 ≤ spikeAtFive.recent_spike_count 2 5 :=
  firing_rate_nonneg_count_monotone spikeAtFive 5 1 2 (by norm_num) (by norm_num)

/-- C6: calling get_firing_rate with window_ms == 0 is NOT guarded: the
source divides the spike count by zero, producing positive infinity when
any spike is counted and NaN when none is — never 0 and never an error
(there is no error path in the function). -/
theorem firing_rate_zero_window_unguarded :
    spikeAtFive.get_firing_rateF 0 5 = F32.posInf ∧
      (LeakyIntegrateFireNeuron.new 1 0.1).get_firing_rateF 0 5 = F32.nan := by
  constructor
  · simp [LeakyIntegrateFireNeuron.get_firing_rateF,
      LeakyIntegrateFireNeuron.recent_spike_count, spikeAtFive,
      LeakyIntegrateFireNeuron.new, F32.fdivF, F32.fmul]
  · simp [LeakyIntegrateFireNeuron.get_firing_rateF,
      LeakyIntegrateFireNeuron.recent_spike_count,
      LeakyIntegrateFireNeuron.new, F32.fdivF, F32.fmul]

/-- C7: the classifier applied to an empty trace is not rejected: the
source computes mean = 0.0/0.0 = NaN and variance = NaN, every comparison
with NaN is false, and the rule chain silently falls through to
minimal_response. -/
theorem recognize_pattern_empty_trace :
    recognize_pattern [] = some "minimal_response" := by
  simp [recognize_pattern, pattern_sumF, pattern_varianceF, classify_statsF,
    F32.fdivF, F32.flt]

/-- C9: the classifier is a pure function of the trace's sum and variance
applied in the fixed first-match-wins order, and the constant trace of
ten samples of 6.0 (sum 60, variance 0) is classified steady_oscillation:
rule 1 fails on its variance conjunct and rule 2 matches. -/
theorem recognize_pattern_constant_six :
    (∀ t1 t2 : List ℚ, pattern_sumF t1 = pattern_sumF t2 →
        pattern_varianceF t1 = pattern_varianceF t2 →
        recognize_pattern t1 = recognize_pattern t2) ∧
      recognize_pattern (List.replicate 10 6) = some "steady_oscillation" := by
  constructor
  · intro t1 t2 hs hv
    unfold recognize_pattern
    rw [hs, hv]
  · norm_num [recognize_pattern, pattern_sumF, pattern_varianceF, classify_statsF,
      List.replicate, F32.fadd, F32.fsub, F32.fmul, F32.fdivF, F32.flt]

/-- Witness for C9's purity conjunct: two distinct traces with equal sum
and variance receive the same label. -/
theorem recognize_pattern_constant_six_witness :
    recognize_pattern [0, 2] = recognize_pattern [2, 0] :=
  recognize_pattern_constant_six.1 [0, 2] [2, 0]
    (by norm_num [pattern_sumF, F32.fadd])
    (by norm_num [pattern_varianceF, pattern_sumF, F32.fadd, F32.fsub, F32.fmul, F32.fdivF])

/-- Truncation toward zero, the semantics of Rust's f32 remainder for the
operands used at construction (all non-negative, where it coincides with
the floor). -/
def qtrunc (x : ℚ) : ℤ := if 0 ≤ x then ⌊x⌋ else ⌈x⌉

/-- Rust f32 remainder a % b, i.e. a - b * trunc(a / b); used for the
per-index threshold and leak-rate formulas at construction. -/
def f32Rem (a b : ℚ) : ℚ := a - b * (qtrunc (a / b) : ℚ)

/-- NeuromorphicProcessor (lib.rs lines 96-104).  The synaptic weight
matrix is the mapping (i, j) ↦ weight; indices at or beyond network_size
carry weight 0, matching the dense n×n Vec.  The pattern_memory field is
omitted: after construction the source never reads or writes it. -/
structure NeuromorphicProcessor where
  neurons : List LeakyIntegrateFireNeuron
  network_size : ℕ
  current_time : ℕ
  learning_rate : ℚ
  synaptic_weights : ℕ → ℕ → ℚ
  initialized : Bool

namespace NeuromorphicProcessor

/-- NeuromorphicProcessor::random_f32 (lib.rs lines 165-172): one LCG
evaluation of the seed (current_time + network_size) as u32, normalized
by u32::MAX.  The method takes &self and advances no state. -/
def random_f32 (p : NeuromorphicProcessor) : ℚ :=
  let seed := (p.current_time + p.network_size) % 4294967296
  let result := (1664525 * seed % 4294967296 + 1013904223) % 4294967296
  (result : ℚ) / 4294967295

/-- The processor record as built by the struct literal at the top of
NeuromorphicProcessor::new (lib.rs lines 112-120), before
initialize_network runs. -/
def base (network_size : ℕ) : NeuromorphicProcessor :=
  { neurons := []
    network_size := network_size
    current_time := 0
    learning_rate := 0.01
    synaptic_weights := fun _ _ => 0
    initialized := false }

/-- The synaptic-weight matrix built by the double loop of
initialize_network (lib.rs lines 140-152).  random_f32 reads only
current_time and network_size and mutates nothing, so the guard draw and
the value draw of every pair are the same scalar random_f32 p. -/
def initialize_weights (p : NeuromorphicProcessor) : ℕ → ℕ → ℚ := fun i j =>
  if i < p.network_size ∧ j < p.network_size ∧ i ≠ j then
    let distance := |(i : ℚ) - (j : ℚ)| / (p.network_size : ℚ)
    let connection_prob := 0.1 * max (1 - distance) 0
    if random_f32 p < connection_prob then (random_f32 p - 0.5) * 0.2 else 0
  else 0

/-- NeuromorphicProcessor::initialize_network (lib.rs lines 129-156):
push one neuron per index with the deterministic threshold and leak-rate
formulas, then build the weight matrix. -/
def initialize_network (p : NeuromorphicProcessor) : NeuromorphicProcessor :=
  let p1 := { p with neurons := (List.range p.network_size).map (fun i =>
    LeakyIntegrateFireNeuron.new (1 + f32Rem ((i : ℚ) * 0.1) 0.5)
      (0.1 + f32Rem ((i : ℚ) * 0.01) 0.05)) }
  { p1 with synaptic_weights := initialize_weights p1 }

/-- NeuromorphicProcessor::new (lib.rs lines 108-127): build the base
record (current_time 0), initialize the network, set initialized.  There
is no error path: every network_size, including 0, yields a processor. -/
def new (network_size : ℕ) : NeuromorphicProcessor :=
  let processor := base network_size
  let processor := initialize_network processor
  { processor with initialized := true }

/-- NeuromorphicProcessor::is_ready (lib.rs lines 349-351). -/
def is_ready (p : NeuromorphicProcessor) : Bool := p.initialized

/-- Rust's f32::clamp(-1.0, 1.0). -/
def clampWeight (x : ℚ) : ℚ := max (-1) (min x 1)

/-- NeuromorphicProcessor::apply_learning (lib.rs lines 291-309): for
every in-range pair (i, j), i ≠ j, whose weight magnitude exceeds 0.001
and whose endpoint neurons both have 20-tick windowed firing rate above
1.0, add learning_rate * activation_strength * 0.1 and clamp to
[-1, 1]; every other entry is untouched. -/
def apply_learning (p : NeuromorphicProcessor) (activation_strength : ℚ) :
    NeuromorphicProcessor :=
  let learning_factor := p.learning_rate * activation_strength
  { p with synaptic_weights := fun i j =>
      let w := p.synaptic_weights i j
      if i < p.network_size ∧ j < p.network_size ∧ i ≠ j ∧ 0.001 < |w| ∧
          1 < (p.neurons.getD i default).get_firing_rate 20 p.current_time ∧
          1 < (p.neurons.getD j default).get_firing_rate 20 p.current_time then
        clampWeight (w + learning_factor * 0.1)
      else w }

/-- External stimulus current for neuron i at timestep t of
generate_spikes (lib.rs lines 191-197): a ramp over the first third of
the run, shaped per neuron by the f32 sine (passed as sinf). -/
def stimulus_input (sinf : ℚ → ℚ) (stimulus_duration t i : ℕ) : ℚ :=
  if t < stimulus_duration then
    (0.5 * (1 - (t : ℚ) / (stimulus_duration : ℚ))) * (0.5 + 0.5 * sinf ((i : ℚ) * 0.1))
  else 0

/-- Recurrent input into neuron i (lib.rs lines 202-208): for every other
neuron j whose outgoing weight to i exceeds 0.001 in magnitude, add
weight * (10-tick firing rate of j, read from the current neuron list) *
0.01. -/
def recurrent_input (w : ℕ → ℕ → ℚ) (n : ℕ) (ns : List LeakyIntegrateFireNeuron)
    (current_time i : ℕ) : ℚ :=
  ((List.range n).map (fun j =>
    if i ≠ j ∧ 0.001 < |w j i| then
      w j i * (ns.getD j default).get_firing_rate 10 current_time * 0.01
    else 0)).sum

/-- Body of the neuron loop of generate_spikes at index i (lib.rs lines
201-212): accumulate the stimulus and recurrent input, step neuron i,
record whether it spiked. -/
def step_network_body (sinf : ℚ → ℚ) (w : ℕ → ℕ → ℚ) (n stimulus_duration t current_time : ℕ)
    (st : List LeakyIntegrateFireNeuron × List Bool) (i : ℕ) :
    List LeakyIntegrateFireNeuron × List Bool :=
  let input := stimulus_input sinf stimulus_duration t i +
    recurrent_input w n st.1 current_time i
  let r := (st.1.getD i default).step input current_time
  (st.1.set i r.2, st.2 ++ [r.1])

/-- One timestep of the neuron loop of generate_spikes (lib.rs lines
199-212): neurons are stepped in index order, and the recurrent input of
neuron i reads the list as already updated for j < i, exactly as the
source mutates self.neurons in place. -/
def step_network (sinf : ℚ → ℚ) (w : ℕ → ℕ → ℚ) (n stimulus_duration t current_time : ℕ)
    (ns : List LeakyIntegrateFireNeuron) : List LeakyIntegrateFireNeuron × List Bool :=
  (List.range n).foldl (step_network_body sinf w n stimulus_duration t current_time) (ns, [])

/-- The body of one iteration of the timestep loop of generate_spikes
(lib.rs lines 185-219): set current_time, step the network, append the
population activity spike_count / network_size to the trace. -/
def gen_step (sinf : ℚ → ℚ) (start_time stimulus_duration : ℕ)
    (st : NeuromorphicProcessor × List ℚ) (t : ℕ) : NeuromorphicProcessor × List ℚ :=
  let ct := start_time + t
  let r := step_network sinf st.1.synaptic_weights st.1.network_size stimulus_duration t ct
    st.1.neurons
  let population_activity := ((r.2.countP id : ℕ) : ℚ) / (st.1.network_size : ℚ)
  ({ st.1 with neurons := r.1, current_time := ct }, st.2 ++ [population_activity])

/-- NeuromorphicProcessor::generate_spikes (lib.rs lines 175-225).  The
wall-clock start time is a parameter; the source returns only the trace
and mutates the processor in place, so the embedding returns both. -/
def generate_spikes (p : NeuromorphicProcessor) (sinf : ℚ → ℚ)
    (pattern_length start_time : ℕ) : NeuromorphicProcessor × List ℚ :=
  let stimulus_duration := pattern_length / 3
  (List.range pattern_length).foldl (gen_step sinf start_time stimulus_duration) (p, [])

end NeuromorphicProcessor

/-- The states reachable from construction by the operations that touch
the synaptic matrix or the neurons: any number of generate_spikes runs
and apply_learning applications in any order.  (process_input changes
weights only through the same apply_learning call, so its effect on the
matrix is covered by the learn constructor.) -/
inductive Reachable : NeuromorphicProcessor → Prop where
  | construct (n : ℕ) : Reachable (NeuromorphicProcessor.new n)
  | learn (p : NeuromorphicProcessor) (a : ℚ) :
      Reachable p → Reachable (p.apply_learning a)
  | generate (p : NeuromorphicProcessor) (sinf : ℚ → ℚ) (L s : ℕ) :
      Reachable p → Reachable (p.generate_spikes sinf L s).1

namespace NeuromorphicProcessor

/-- The normalized LCG draw always lies in [0, 1]. -/
theorem random_f32_mem (p : NeuromorphicProcessor) :
    0 ≤ p.random_f32 ∧ p.random_f32 ≤ 1 := by
  unfold random_f32
  constructor
  · positivity
  · rw [div_le_one (by norm_num)]
    have h : (1664525 * ((p.current_time + p.network_size) % 4294967296) % 4294967296
        + 1013904223) % 4294967296 ≤ 4294967295 :=
      Nat.lt_succ_iff.mp (Nat.mod_lt _ (by norm_num))
    exact_mod_cast h

/-- Closed form of the freshly constructed weight matrix: every entry is
decided by the single scalar random_f32 (base n) drawn with
current_time = 0. -/
theorem new_weights_closed_form (n i j : ℕ) :
    (new n).synaptic_weights i j =
      if i < n ∧ j < n ∧ i ≠ j then
        (if (base n).random_f32 < 0.1 * max (1 - |(i : ℚ) - (j : ℚ)| / (n : ℚ)) 0 then
          ((base n).random_f32 - 0.5) * 0.2
        else 0)
      else 0 := rfl

/-- Every entry of a freshly constructed weight matrix has magnitude at
most 0.1. -/
theorem new_weight_abs_le (n i j : ℕ) :
    |(new n).synaptic_weights i j| ≤ 0.1 := by
  rw [new_weights_closed_form]
  obtain ⟨h0, h1⟩ := random_f32_mem (base n)
  split_ifs with hc hr
  · have habs : |(base n).random_f32 - 0.5| ≤ 0.5 := abs_le.mpr ⟨by linarith, by linarith⟩
    calc |((base n).random_f32 - 0.5) * 0.2| = |(base n).random_f32 - 0.5| * 0.2 := by
          rw [abs_mul]; norm_num
      _ ≤ 0.5 * 0.2 := by nlinarith [abs_nonneg ((base n).random_f32 - 0.5)]
      _ ≤ 0.1 := by norm_num
  · norm_num
  · norm_num

/-- clampWeight always lands in [-1, 1]. -/
theorem clampWeight_mem (x : ℚ) : -1 ≤ clampWeight x ∧ clampWeight x ≤ 1 :=
  ⟨le_max_left _ _, max_le (by norm_num) (min_le_right _ _)⟩

/-- Each weight entry after apply_learning is either untouched or the
clamped increment of the old entry. -/
theorem apply_learning_weight_eq (p : NeuromorphicProcessor) (a : ℚ) (i j : ℕ) :
    (p.apply_learning a).synaptic_weights i j = p.synaptic_weights i j ∨
      (p.apply_learning a).synaptic_weights i j =
        clampWeight (p.synaptic_weights i j + p.learning_rate * a * 0.1) := by
  unfold apply_learning
  dsimp only
  split_ifs with h
  · right; ring_nf
  · left; rfl

/-- apply_learning leaves every entry of magnitude at most 0.001 (in
particular every absent connection) unchanged. -/
theorem apply_learning_small_unchanged (p : NeuromorphicProcessor) (a : ℚ) (i j : ℕ)
    (h : |p.synaptic_weights i j| ≤ 0.001) :
    (p.apply_learning a).synaptic_weights i j = p.synaptic_weights i j := by
  unfold apply_learning
  dsimp only
  split_ifs with hc
  · exact absurd hc.2.2.2.1 (by linarith)
  · rfl

/-- gen_step touches only the neurons, the clock and the trace. -/
theorem gen_step_fst_fields (sinf : ℚ → ℚ) (s d : ℕ) (st : NeuromorphicProcessor × List ℚ)
    (t : ℕ) :
    (gen_step sinf s d st t).1.synaptic_weights = st.1.synaptic_weights ∧
      (gen_step sinf s d st t).1.network_size = st.1.network_size := ⟨rfl, rfl⟩

/-- Folding gen_step over any timestep list preserves the weight matrix
and the network size. -/
theorem gen_fold_fst_fields (sinf : ℚ → ℚ) (s d : ℕ) :
    ∀ (l : List ℕ) (st : NeuromorphicProcessor × List ℚ),
      ((l.foldl (gen_step sinf s d) st).1.synaptic_weights = st.1.synaptic_weights) ∧
        ((l.foldl (gen_step sinf s d) st).1.network_size = st.1.network_size) := by
  intro l
  induction l with
  | nil => intro st; exact ⟨rfl, rfl⟩
  | cons t ts ih =>
    intro st
    rw [List.foldl_cons]
    exact ⟨(ih _).1.trans rfl, (ih _).2.trans rfl⟩

/-- generate_spikes never changes the weight matrix or the network
size. -/
theorem generate_spikes_fst_fields (p : NeuromorphicProcessor) (sinf : ℚ → ℚ) (L s : ℕ) :
    ((p.generate_spikes sinf L s).1.synaptic_weights = p.synaptic_weights) ∧
      ((p.generate_spikes sinf L s).1.network_size = p.network_size) := by
  unfold generate_spikes
  exact gen_fold_fst_fields sinf s (L / 3) (List.range L) (p, [])

end NeuromorphicProcessor

namespace NeuromorphicProcessor

/-- The neuron loop records one spike flag per index, so the flag list of
one timestep has exactly network_size entries. -/
theorem step_network_body_snd_length (sinf : ℚ → ℚ) (w : ℕ → ℕ → ℚ) (n d t ct : ℕ)
    (st : List LeakyIntegrateFireNeuron × List Bool) (i : ℕ) :
    (step_network_body sinf w n d t ct st i).2.length = st.2.length + 1 := by
  simp [step_network_body]

/-- Folding the neuron-loop body appends one flag per visited index. -/
theorem step_network_fold_snd_length (sinf : ℚ → ℚ) (w : ℕ → ℕ → ℚ) (n d t ct : ℕ) :
    ∀ (l : List ℕ) (st : List LeakyIntegrateFireNeuron × List Bool),
      ((l.foldl (step_network_body sinf w n d t ct) st).2.length = st.2.length + l.length) := by
  intro l
  induction l with
  | nil => intro st; simp
  | cons i is ih =>
    intro st
    rw [List.foldl_cons, ih, step_network_body_snd_length]
    simp only [List.length_cons]
    omega

/-- One timestep produces exactly network_size spike flags. -/
theorem step_network_snd_length (sinf : ℚ → ℚ) (w : ℕ → ℕ → ℚ) (n d t ct : ℕ)
    (ns : List LeakyIntegrateFireNeuron) :
    (step_network sinf w n d t ct ns).2.length = n := by
  unfold step_network
  rw [step_network_fold_snd_length]
  simp

/-- One gen_step appends exactly one population activity, of the form
(spike count) / network_size with the count at most network_size. -/
theorem gen_step_snd_eq (sinf : ℚ → ℚ) (s d : ℕ) (st : NeuromorphicProcessor × List ℚ)
    (t : ℕ) :
    ∃ c : ℕ, c ≤ st.1.network_size ∧
      (gen_step sinf s d st t).2 = st.2 ++ [((c : ℕ) : ℚ) / (st.1.network_size : ℚ)] := by
  refine ⟨(step_network sinf st.1.synaptic_weights st.1.network_size d t (s + t)
    st.1.neurons).2.countP id, ?_, rfl⟩
  calc (step_network sinf st.1.synaptic_weights st.1.network_size d t (s + t)
        st.1.neurons).2.countP id
      ≤ (step_network sinf st.1.synaptic_weights st.1.network_size d t (s + t)
        st.1.neurons).2.length := List.countP_le_length id
    _ = st.1.network_size := step_network_snd_length _ _ _ _ _ _ _

/-- Invariant of the timestep fold of generate_spikes: the trace grows by
one entry per timestep, and every appended entry is a spike count over
the (constant) network size. -/
theorem gen_fold_trace (sinf : ℚ → ℚ) (s d n : ℕ) :
    ∀ (l : List ℕ) (st : NeuromorphicProcessor × List ℚ), st.1.network_size = n →
      ((l.foldl (gen_step sinf s d) st).2.length = st.2.length + l.length) ∧
        ∀ x ∈ (l.foldl (gen_step sinf s d) st).2,
          x ∈ st.2 ∨ ∃ c : ℕ, c ≤ n ∧ x = (c : ℚ) / (n : ℚ) := by
  intro l
  induction l with
  | nil => intro st _; exact ⟨by simp, fun x hx => Or.inl hx⟩
  | cons t ts ih =>
    intro st hst
    rw [List.foldl_cons]
    have hsz : (gen_step sinf s d st t).1.network_size = n :=
      (gen_step_fst_fields sinf s d st t).2.trans hst
    obtain ⟨hlen, hmem⟩ := ih (gen_step sinf s d st t) hsz
    obtain ⟨c, hc, he⟩ := gen_step_snd_eq sinf s d st t
    constructor
    · rw [hlen, he]
      simp
      omega
    · intro x hx
      rcases hmem x hx with hx2 | hx2
      · rw [he] at hx2
        rcases List.mem_append.mp hx2 with h | h
        · exact Or.inl h
        · right
          refine ⟨c, hst ▸ hc, ?_⟩
          rw [List.mem_singleton.mp h, hst]
      · exact Or.inr hx2

/-- The trace of generate_spikes has exactly pattern_length entries. -/
theorem generate_spikes_snd_length (p : NeuromorphicProcessor) (sinf : ℚ → ℚ) (L s : ℕ) :
    (p.generate_spikes sinf L s).2.length = L := by
  have h := (gen_fold_trace sinf s (L / 3) p.network_size (List.range L) (p, []) rfl).1
  simpa [generate_spikes] using h

/-- Every trace entry of generate_spikes is a spike count divided by the
network size. -/
theorem generate_spikes_snd_mem (p : NeuromorphicProcessor) (sinf : ℚ → ℚ) (L s : ℕ) :
    ∀ x ∈ (p.generate_spikes sinf L s).2,
      ∃ c : ℕ, c ≤ p.network_size ∧ x = (c : ℚ) / (p.network_size : ℚ) := by
  intro x hx
  have hx2 : x ∈ ((List.range L).foldl (gen_step sinf s (L / 3)) (p, [])).2 := by
    simpa [generate_spikes] using hx
  rcases (gen_fold_trace sinf s (L / 3) p.network_size (List.range L) (p, []) rfl).2 x hx2
    with h | h
  · exact absurd h (List.not_mem_nil x)
  · exact h

end NeuromorphicProcessor

/-- C1: at construction every weight has magnitude at most 0.1, and in
every state reachable by construction, spike generation and any number of
plasticity applications, every synaptic weight lies in [-1, 1]. -/
theorem synaptic_weights_bounded :
    (∀ n i j, |(NeuromorphicProcessor.new n).synaptic_weights i j| ≤ 0.1) ∧
      ∀ p, Reachable p → ∀ i j,
        -1 ≤ p.synaptic_weights i j ∧ p.synaptic_weights i j ≤ 1 := by
  refine ⟨NeuromorphicProcessor.new_weight_abs_le, ?_⟩
  intro p hp
  induction hp with
  | construct n =>
    intro i j
    have h := abs_le.mp (NeuromorphicProcessor.new_weight_abs_le n i j)
    constructor <;> [linarith [h.1]; linarith [h.2]]
  | learn p a _ ih =>
    intro i j
    rcases NeuromorphicProcessor.apply_learning_weight_eq p a i j with h | h
    · rw [h]; exact ih i j
    · rw [h]; exact NeuromorphicProcessor.clampWeight_mem _
  | generate p sinf L s _ ih =>
    intro i j
    rw [congrFun (congrFun (NeuromorphicProcessor.generate_spikes_fst_fields p sinf L s).1 i) j]
    exact ih i j

/-- Witness for C1 at the freshly constructed two-neuron network. -/
theorem synaptic_weights_bounded_witness :
    -1 ≤ (NeuromorphicProcessor.new 2).synaptic_weights 0 1 ∧
      (NeuromorphicProcessor.new 2).synaptic_weights 0 1 ≤ 1 :=
  synaptic_weights_bounded.2 (NeuromorphicProcessor.new 2) (Reachable.construct 2) 0 1

/-- C5: construction has no failure path.  With network_size == 0 the
constructor still returns an instance marked initialized, with is_ready
reporting true — there is no InvalidConfiguration error anywhere in the
code — and every positive size succeeds likewise. -/
theorem construction_never_fails :
    (NeuromorphicProcessor.new 0).initialized = true ∧
      (NeuromorphicProcessor.new 0).is_ready = true ∧
      (NeuromorphicProcessor.new 0).network_size = 0 ∧
      ∀ n, (NeuromorphicProcessor.new n).initialized = true :=
  ⟨rfl, rfl, rfl, fun _ => rfl⟩

/-- C10: random_f32 is a pure function of current_time + network_size and
advances no state; construction holds current_time at 0, so every entry
of the freshly built weight matrix is decided by the one scalar
random_f32 (base n): every connected pair receives the identical weight
(r - 0.5) * 0.2, and the guard compares that same r with each pair's
connection probability.  Bit-identical reconstruction for equal sizes is
immediate: the closed form depends on n, i, j alone. -/
theorem random_f32_stateless_and_init :
    (∀ p q : NeuromorphicProcessor,
        p.current_time + p.network_size = q.current_time + q.network_size →
          p.random_f32 = q.random_f32) ∧
      ∀ n i j, (NeuromorphicProcessor.new n).synaptic_weights i j =
        if i < n ∧ j < n ∧ i ≠ j then
          (if (NeuromorphicProcessor.base n).random_f32 <
              0.1 * max (1 - |(i : ℚ) - (j : ℚ)| / (n : ℚ)) 0 then
            ((NeuromorphicProcessor.base n).random_f32 - 0.5) * 0.2
          else 0)
        else 0 := by
  constructor
  · intro p q h
    simp only [NeuromorphicProcessor.random_f32, h]
  · exact NeuromorphicProcessor.new_weights_closed_form

/-- Witness for C10: two processors with different clocks and sizes but
the same seed sum draw the same value. -/
theorem random_f32_stateless_and_init_witness :
    (NeuromorphicProcessor.base 5).random_f32 =
      ({ NeuromorphicProcessor.base 3 with current_time := 2 }).random_f32 :=
  random_f32_stateless_and_init.1 _ _ rfl

/-- Neuron used in the plasticity counterexample: one spike recorded at
timestep 0, so its 20-tick firing rate at time 0 is 50 Hz. -/
def learnDemoNeuron : LeakyIntegrateFireNeuron :=
  { LeakyIntegrateFireNeuron.new 1 0.1 with spike_history := [0] }

/-- Two-neuron simulator state with a single negative connection
0 → 1 of weight -0.5 and both neurons recently active. -/
def learnDemo : NeuromorphicProcessor :=
  { neurons := [learnDemoNeuron, learnDemoNeuron]
    network_size := 2
    current_time := 0
    learning_rate := 0.01
    synaptic_weights := fun i j => if i = 0 ∧ j = 1 then -0.5 else 0
    initialized := true }

/-- C4 counterexample: apply_learning does weaken an existing connection.
The connected pair (0, 1) carries weight -0.5 (magnitude above 0.001);
with both firing rates above 1.0 and activation_strength 1, the update
adds +0.001, moving the weight to -0.499 — magnitude strictly below its
prior value, refuting that |weight| never decreases. -/
theorem apply_learning_weakens_negative_weight :
    0.001 < |learnDemo.synaptic_weights 0 1| ∧
      |(learnDemo.apply_learning 1).synaptic_weights 0 1| <
        |learnDemo.synaptic_weights 0 1| := by
  constructor
  · norm_num [learnDemo, abs_of_nonpos]
  · norm_num [NeuromorphicProcessor.apply_learning, learnDemo, learnDemoNeuron,
      NeuromorphicProcessor.clampWeight, LeakyIntegrateFireNeuron.get_firing_rate,
      LeakyIntegrateFireNeuron.recent_spike_count, LeakyIntegrateFireNeuron.new,
      abs_of_nonpos]

/-- C4 amended: apply_learning never changes a pair whose weight
magnitude is at most 0.001 (so it never creates or prunes connections);
every entry is either untouched or set to
clamp(w + learning_rate * activation_strength * 0.1); and for
non-negative activation_strength and learning rate (and weight at most
1) a weight never algebraically decreases — though, as the
counterexample shows, the magnitude of a negative weight can shrink. -/
theorem apply_learning_monotone_characterization (p : NeuromorphicProcessor) (a : ℚ)
    (i j : ℕ) (ha : 0 ≤ a) (hlr : 0 ≤ p.learning_rate)
    (hw : p.synaptic_weights i j ≤ 1) :
    (|p.synaptic_weights i j| ≤ 0.001 →
        (p.apply_learning a).synaptic_weights i j = p.synaptic_weights i j) ∧
      ((p.apply_learning a).synaptic_weights i j = p.synaptic_weights i j ∨
        (p.apply_learning a).synaptic_weights i j =
          NeuromorphicProcessor.clampWeight
            (p.synaptic_weights i j + p.learning_rate * a * 0.1)) ∧
      p.synaptic_weights i j ≤ (p.apply_learning a).synaptic_weights i j := by
  refine ⟨fun h => NeuromorphicProcessor.apply_learning_small_unchanged p a i j h,
    NeuromorphicProcessor.apply_learning_weight_eq p a i j, ?_⟩
  rcases NeuromorphicProcessor.apply_learning_weight_eq p a i j with h | h
  · rw [h]
  · rw [h]
    have hd : 0 ≤ p.learning_rate * a * 0.1 := by positivity
    have hmin : p.synaptic_weights i j ≤
        min (p.synaptic_weights i j + p.learning_rate * a * 0.1) 1 :=
      le_min (by linarith) hw
    exact hmin.trans (le_max_right _ _)

/-- Witness for the amended C4: on the counterexample state the weight
moves up (from -0.5 toward -0.499), never down. -/
theorem apply_learning_monotone_characterization_witness :
    learnDemo.synaptic_weights 0 1 ≤ (learnDemo.apply_learning 1).synaptic_weights 0 1 :=
  (apply_learning_monotone_characterization learnDemo 1 0 1 (by norm_num)
    (by norm_num [learnDemo]) (by norm_num [learnDemo])).2.2

/-- C8: for a positive network size, generate_spikes(L) returns exactly L
population activities (in particular an empty trace for L = 0), each of
the form (spiking neuron count) / network_size and hence in [0, 1]. -/
theorem generate_spikes_trace_spec (p : NeuromorphicProcessor) (sinf : ℚ → ℚ) (L s : ℕ)
    (hn : 0 < p.network_size) :
    ((p.generate_spikes sinf L s).2.length = L) ∧
      ∀ k, k < L →
        ∃ c : ℕ, c ≤ p.network_size ∧
          (p.generate_spikes sinf L s).2.getD k 0 = (c : ℚ) / (p.network_size : ℚ) ∧
          0 ≤ (p.generate_spikes sinf L s).2.getD k 0 ∧
          (p.generate_spikes sinf L s).2.getD k 0 ≤ 1 := by
  have hlen := NeuromorphicProcessor.generate_spikes_snd_length p sinf L s
  refine ⟨hlen, ?_⟩
  intro k hk
  have hk2 : k < (p.generate_spikes sinf L s).2.length := by rw [hlen]; exact hk
  have hmem : (p.generate_spikes sinf L s).2.getD k 0 ∈ (p.generate_spikes sinf L s).2 := by
    rw [List.getD_eq_getElem?_getD, List.getElem?_eq_getElem hk2]
    exact List.getElem_mem hk2
  obtain ⟨c, hc, he⟩ := NeuromorphicProcessor.generate_spikes_snd_mem p sinf L s _ hmem
  have hnq : (0 : ℚ) < (p.network_size : ℚ) := by exact_mod_cast hn
  refine ⟨c, hc, he, ?_, ?_⟩
  · rw [he]
    positivity
  · rw [he, div_le_one hnq]
    exact_mod_cast hc

/-- Witness for C8 on a freshly constructed two-neuron network, three
timesteps, constant sine: the trace has three entries with the first a
spike fraction in [0, 1]. -/
theorem generate_spikes_trace_spec_witness :
    (((NeuromorphicProcessor.new 2).generate_spikes (fun _ => 0) 3 0).2.length = 3) ∧
      ∃ c : ℕ, c ≤ (NeuromorphicProcessor.new 2).network_size ∧
        ((NeuromorphicProcessor.new 2).generate_spikes (fun _ => 0) 3 0).2.getD 0 0 =
          (c : ℚ) / ((NeuromorphicProcessor.new 2).network_size : ℚ) ∧
        0 ≤ ((NeuromorphicProcessor.new 2).generate_spikes (fun _ => 0) 3 0).2.getD 0 0 ∧
        ((NeuromorphicProcessor.new 2).generate_spikes (fun _ => 0) 3 0).2.getD 0 0 ≤ 1 :=
  ⟨(generate_spikes_trace_spec (NeuromorphicProcessor.new 2) (fun _ => 0) 3 0
      (by norm_num [NeuromorphicProcessor.new, NeuromorphicProcessor.initialize_network,
        NeuromorphicProcessor.base])).1,
    (generate_spikes_trace_spec (NeuromorphicProcessor.new 2) (fun _ => 0) 3 0
      (by norm_num [NeuromorphicProcessor.new, NeuromorphicProcessor.initialize_network,
        NeuromorphicProcessor.base])).2 0 (by norm_num)⟩
